import Mathlib

/-!
Verification of the tile-occupancy / building-adjacency / charm core of the
DongzhouIsland repository.

The definitions below are a shallow embedding of the TypeScript sources
`TileOccupancyManager.ts`, `BuildingManager.ts` and `CharmCalculationSystem.ts`.
Grid coordinates are integers.  The TypeScript occupancy map is a JS `Map`
keyed by the string `"row_col"`; for integer coordinates that key is in
bijection with the pair `(row, col)`, so the embedding keys the map by
`Int × Int` directly and represents the `Map` as an insertion-ordered
association list, mirroring JS `Map` semantics (`set` overwrites in place,
otherwise appends; `delete` removes the entry with the key).

Engine-owned state (Cocos Creator nodes, prefabs, UI refresh) is outside the
embedding.  The only engine fact the algorithms branch on is
`occupancyInfo.buildingNode && occupancyInfo.buildingNode.isValid`, which is
modelled as the boolean field `buildingNodeValid` of the occupancy record.
-/

/-- `TileOccupancyInfo` from `TileOccupancyManager.ts` / `BuildingManager.ts`.
The engine node reference `buildingNode` is represented only by its validity
flag (`buildingNode && buildingNode.isValid`). -/
structure TileOccupancyInfo where
  buildingId : String
  buildingType : String
  anchorRow : Int
  anchorCol : Int
  width : Int
  height : Int
  buildingNodeValid : Bool
  deriving DecidableEq, Repr

/-- The tile occupancy map: an insertion-ordered association list from cells
to occupancy records, mirroring the JS `Map<string, TileOccupancyInfo>`. -/
abbrev OccMap := List ((Int × Int) × TileOccupancyInfo)

/-- `n` consecutive integers counting up from `lo`. -/
def intRangeAux (lo : Int) : Nat → List Int
  | 0 => []
  | n + 1 => lo :: intRangeAux (lo + 1) n

/-- The integers `lo, lo+1, …, hi` in order (empty when `hi < lo`); the
index set of a TS `for (let i = lo; i <= hi; i++)` loop. -/
def intRange (lo hi : Int) : List Int :=
  intRangeAux lo (hi + 1 - lo).toNat

theorem mem_intRangeAux {n : Nat} {lo x : Int} :
    x ∈ intRangeAux lo n ↔ lo ≤ x ∧ x < lo + n := by
  induction n generalizing lo with
  | zero => simp only [intRangeAux, List.not_mem_nil, false_iff]; omega
  | succ n ih =>
    simp only [intRangeAux, List.mem_cons, ih]
    omega

theorem mem_intRange {lo hi x : Int} : x ∈ intRange lo hi ↔ lo ≤ x ∧ x ≤ hi := by
  rw [intRange, mem_intRangeAux]
  omega

theorem nodup_intRangeAux {n : Nat} {lo : Int} : (intRangeAux lo n).Nodup := by
  induction n generalizing lo with
  | zero => simp [intRangeAux]
  | succ n ih =>
    refine List.nodup_cons.mpr ⟨fun hmem => ?_, ih⟩
    rw [mem_intRangeAux] at hmem
    omega

theorem nodup_intRange (lo hi : Int) : (intRange lo hi).Nodup :=
  nodup_intRangeAux

/-- JS `Map.has` on the association list. -/
def mapHas (m : OccMap) (k : Int × Int) : Bool :=
  m.any (fun e => decide (e.1 = k))

/-- JS `Map.get` on the association list. -/
def mapGet (m : OccMap) (k : Int × Int) : Option TileOccupancyInfo :=
  (m.find? (fun e => decide (e.1 = k))).map (·.2)

/-- JS `Map.set`: overwrite in place when the key is present, else append. -/
def mapSet (m : OccMap) (k : Int × Int) (v : TileOccupancyInfo) : OccMap :=
  if mapHas m k then
    m.map (fun e => if e.1 = k then (k, v) else e)
  else
    m ++ [(k, v)]

/-- JS `Map.delete` (by key). -/
def mapDelete (m : OccMap) (k : Int × Int) : OccMap :=
  m.filter (fun e => !(decide (e.1 = k)))

theorem mapHas_eq_true_iff {m : OccMap} {k : Int × Int} :
    mapHas m k = true ↔ ∃ info, (k, info) ∈ m := by
  simp only [mapHas, List.any_eq_true, decide_eq_true_eq]
  constructor
  · rintro ⟨⟨k', info⟩, hmem, rfl⟩
    exact ⟨info, hmem⟩
  · rintro ⟨info, hmem⟩
    exact ⟨(k, info), hmem, rfl⟩

theorem mapHas_eq_false_iff {m : OccMap} {k : Int × Int} :
    mapHas m k = false ↔ ∀ info, (k, info) ∉ m := by
  rw [← Bool.not_eq_true, not_iff_comm, mapHas_eq_true_iff]
  push_neg
  simp

theorem mapGet_eq_some_mem {m : OccMap} {k : Int × Int} {info : TileOccupancyInfo}
    (h : mapGet m k = some info) : (k, info) ∈ m := by
  simp only [mapGet, Option.map_eq_some'] at h
  obtain ⟨⟨k', info'⟩, hfind, heq⟩ := h
  have hk : k' = k := by
    have := List.find?_some hfind
    simpa using this
  cases heq
  subst hk
  exact List.mem_of_find?_eq_some hfind

theorem mapGet_eq_none_iff {m : OccMap} {k : Int × Int} :
    mapGet m k = none ↔ ∀ info, (k, info) ∉ m := by
  simp only [mapGet, Option.map_eq_none', List.find?_eq_none, decide_eq_true_eq]
  constructor
  · intro h info hmem
    exact h (k, info) hmem rfl
  · rintro h ⟨k', info'⟩ hmem rfl
    exact h info' hmem

namespace TileOccupancyManager

/-- `TileOccupancyManager.canPlaceBuildingAt` (TileOccupancyManager.ts:51-69):
scans every cell of the footprint rectangle, failing on a negative index or
an already-occupied cell.  Note that no upper bound is checked. -/
def canPlaceBuildingAt (m : OccMap) (row col width height : Int) : Bool :=
  (intRange (row - height + 1) row).all fun r =>
    (intRange (col - width + 1) col).all fun c =>
      !(decide (r < 0) || decide (c < 0)) && !(mapHas m (r, c))

theorem canPlaceBuildingAt_eq_true_iff {m : OccMap} {row col width height : Int} :
    canPlaceBuildingAt m row col width height = true ↔
      ∀ r c : Int, row - height + 1 ≤ r → r ≤ row → col - width + 1 ≤ c → c ≤ col →
        0 ≤ r ∧ 0 ≤ c ∧ mapHas m (r, c) = false := by
  simp only [canPlaceBuildingAt, List.all_eq_true, mem_intRange, Bool.and_eq_true,
    Bool.not_eq_true', Bool.or_eq_false_iff, decide_eq_false_iff_not, not_lt]
  constructor
  · intro h r c h1 h2 h3 h4
    obtain ⟨⟨hr, hc⟩, hocc⟩ := h r ⟨h1, h2⟩ c ⟨h3, h4⟩
    exact ⟨hr, hc, hocc⟩
  · intro h r hr c hc
    obtain ⟨h1, h2, h3⟩ := h r c hr.1 hr.2 hc.1 hc.2
    exact ⟨⟨h1, h2⟩, h3⟩

end TileOccupancyManager

theorem not_cell_ok_iff {r c : Int} {b : Bool} :
    ¬(0 ≤ r ∧ 0 ≤ c ∧ b = false) ↔ (r < 0 ∨ c < 0 ∨ b = true) := by
  cases b <;> simp <;> omega

/-- C1: `canPlaceBuildingAt(row, col, width, height)` returns `false` exactly when
some footprint cell `(r, c)` with `row - height + 1 ≤ r ≤ row` and
`col - width + 1 ≤ c ≤ col` has a negative coordinate or is already occupied;
no upper bound against the map dimensions is consulted (the function does not
even receive them), so a free all-nonnegative footprint is accepted regardless
of `mapRows`/`mapCols`. -/
theorem canPlaceBuildingAt_false_iff_violation (m : OccMap) (row col width height : Int) :
    TileOccupancyManager.canPlaceBuildingAt m row col width height = false ↔
      ∃ r c : Int, row - height + 1 ≤ r ∧ r ≤ row ∧ col - width + 1 ≤ c ∧ c ≤ col ∧
        (r < 0 ∨ c < 0 ∨ mapHas m (r, c) = true) := by
  rw [Bool.eq_false_iff, Ne, TileOccupancyManager.canPlaceBuildingAt_eq_true_iff]
  constructor
  · intro h
    rcases not_forall.mp h with ⟨r, hr⟩
    rcases not_forall.mp hr with ⟨c, hc⟩
    rcases Classical.not_imp.mp hc with ⟨h1, hc⟩
    rcases Classical.not_imp.mp hc with ⟨h2, hc⟩
    rcases Classical.not_imp.mp hc with ⟨h3, hc⟩
    rcases Classical.not_imp.mp hc with ⟨h4, hc⟩
    exact ⟨r, c, h1, h2, h3, h4, not_cell_ok_iff.mp hc⟩
  · rintro ⟨r, c, h1, h2, h3, h4, hv⟩ hall
    exact not_cell_ok_iff.mpr hv (hall r c h1 h2 h3 h4)

namespace BuildingManager

/-- `PlacedBuilding` models the elements of the `allPlacedBuildings` array
(`{row, col, buildingInfo}` as produced by
`TileOccupancyManager.getAllPlacedBuildings`). -/
structure PlacedBuilding where
  row : Int
  col : Int
  buildingInfo : TileOccupancyInfo
  deriving DecidableEq, Repr

/-- `BuildingManager.calculateDetectionRadius` (BuildingManager.ts:40-49),
with `area = width * height`. -/
def calculateDetectionRadius (width height : Int) : Int :=
  if width * height > 4 then 3
  else if width * height ≥ 2 then 2
  else 1

/-- One iteration of the outer `ring` loop of `getBuildingDetectionArea`
(BuildingManager.ts:139-175): the row/column double loop over the expanded
bounding box, with the three `continue` guards (map bounds, the footprint
box itself, the next-smaller expanded box). -/
def detectionRing (minRow maxRow minCol maxCol mapRows mapCols ring : Int) : List (Int × Int) :=
  (intRange (minRow - ring) (maxRow + ring)).flatMap fun row =>
    ((intRange (minCol - ring) (maxCol + ring)).filter fun col =>
      decide (¬(row < 0 ∨ row ≥ mapRows ∨ col < 0 ∨ col ≥ mapCols)) &&
      decide (¬(minRow ≤ row ∧ row ≤ maxRow ∧ minCol ≤ col ∧ col ≤ maxCol)) &&
      decide (¬(ring > 1 ∧ (minRow - (ring - 1) ≤ row ∧ row ≤ maxRow + (ring - 1) ∧
        minCol - (ring - 1) ≤ col ∧ col ≤ maxCol + (ring - 1))))
    ).map fun col => (row, col)

/-- `BuildingManager.getBuildingDetectionArea` (BuildingManager.ts:121-178);
the footprint bounding box is `minRow = anchorRow - height + 1`,
`maxRow = anchorRow`, `minCol = anchorCol - width + 1`, `maxCol = anchorCol`. -/
def getBuildingDetectionArea (anchorRow anchorCol width height mapRows mapCols
    detectionRadius : Int) : List (Int × Int) :=
  (intRange 1 detectionRadius).flatMap fun ring =>
    detectionRing (anchorRow - height + 1) anchorRow (anchorCol - width + 1) anchorCol
      mapRows mapCols ring

/-- `BuildingManager.getBuildingOccupiedTiles` (BuildingManager.ts:279-295). -/
def getBuildingOccupiedTiles (anchorRow anchorCol width height : Int) : List (Int × Int) :=
  (intRange (anchorRow - height + 1) anchorRow).flatMap fun r =>
    (intRange (anchorCol - width + 1) anchorCol).map fun c => (r, c)

/-- `BuildingAdjacencyResult` (BuildingManager.ts:20-25). -/
structure BuildingAdjacencyResult where
  coveredBuildings : List TileOccupancyInfo
  coveringBuildings : List TileOccupancyInfo
  deriving DecidableEq, Repr

/-- The push-unless-seen step shared by both scans of `getAdjacentBuildings`:
append the record and its `buildingId` unless the id is already in the
accumulated id set (the `Set<string>` of the TS code, kept as a list). -/
def dedupStep (acc : List TileOccupancyInfo × List String) (info : TileOccupancyInfo) :
    List TileOccupancyInfo × List String :=
  if info.buildingId ∈ acc.2 then acc
  else (acc.1 ++ [info], acc.2 ++ [info.buildingId])

/-- One iteration of the covered-buildings scan of `getAdjacentBuildings`
(BuildingManager.ts:212-220): look the tile up in the occupancy map and push
the record unless its `buildingId` was already collected. -/
def coveredStep (m : OccMap) (acc : List TileOccupancyInfo × List String)
    (tile : Int × Int) : List TileOccupancyInfo × List String :=
  match mapGet m tile with
  | some occupancyInfo => dedupStep acc occupancyInfo
  | none => acc

/-- One iteration of the covering-buildings scan of `getAdjacentBuildings`
(BuildingManager.ts:226-263): skip the entry anchored at the queried anchor,
recompute the other building's detection area with its own radius, and push
its record (deduplicated by `buildingId`) when that area meets one of the
current building's occupied tiles. -/
def coveringStep (anchorRow anchorCol mapRows mapCols : Int)
    (currentBuildingTiles : List (Int × Int))
    (acc : List TileOccupancyInfo × List String) (building : PlacedBuilding) :
    List TileOccupancyInfo × List String :=
  if building.row = anchorRow ∧ building.col = anchorCol then acc
  else
    let otherDetectionArea := getBuildingDetectionArea building.row building.col
      building.buildingInfo.width building.buildingInfo.height mapRows mapCols
      (calculateDetectionRadius building.buildingInfo.width building.buildingInfo.height)
    if currentBuildingTiles.any
        (fun currentTile => otherDetectionArea.any fun otherTile =>
          decide (currentTile = otherTile)) then
      dedupStep acc building.buildingInfo
    else acc

/-- `BuildingManager.getAdjacentBuildings` (BuildingManager.ts:193-269). -/
def getAdjacentBuildings (anchorRow anchorCol width height mapRows mapCols : Int)
    (tileOccupancyMap : OccMap) (allPlacedBuildings : List PlacedBuilding)
    (detectionRadius : Int) : BuildingAdjacencyResult :=
  let detectionArea := getBuildingDetectionArea anchorRow anchorCol width height
    mapRows mapCols detectionRadius
  let covered := detectionArea.foldl (coveredStep tileOccupancyMap) ([], [])
  let currentBuildingTiles := getBuildingOccupiedTiles anchorRow anchorCol width height
  let covering := allPlacedBuildings.foldl
    (coveringStep anchorRow anchorCol mapRows mapCols currentBuildingTiles) ([], [])
  ⟨covered.1, covering.1⟩

end BuildingManager

/-- Keep, for each `buildingId`, only its first occurrence: the reference
"first-discovery order" deduplication that the scans of
`getAdjacentBuildings` are compared against. -/
def firstDedupById : List TileOccupancyInfo → List TileOccupancyInfo
  | [] => []
  | info :: rest =>
    info :: firstDedupById (rest.filter fun i => !(decide (i.buildingId = info.buildingId)))
  termination_by l => l.length
  decreasing_by
    simp only [List.length_cons]
    exact Nat.lt_succ_of_le (List.length_filter_le _ _)

/-- Chebyshev-distance offset of the cell `(row, col)` from the rectangle
`[minRow, maxRow] × [minCol, maxCol]` (0 on the rectangle itself, `k` on the
`k`-th surrounding shell).  This definition follows the specification's
wording of the detection rings and is the yardstick the code's
`getBuildingDetectionArea` is compared against. -/
def boxOffset (minRow maxRow minCol maxCol row col : Int) : Int :=
  max (max (minRow - row) (row - maxRow))
    (max (max (minCol - col) (col - maxCol)) 0)

theorem boxOffset_le_iff {minRow maxRow minCol maxCol row col k : Int} :
    boxOffset minRow maxRow minCol maxCol row col ≤ k ↔
      minRow - k ≤ row ∧ row ≤ maxRow + k ∧ minCol - k ≤ col ∧ col ≤ maxCol + k ∧ 0 ≤ k := by
  simp only [boxOffset, max_le_iff]
  omega

theorem mem_detectionRing {minRow maxRow minCol maxCol mapRows mapCols ring row col : Int}
    (hring : 1 ≤ ring) :
    (row, col) ∈ BuildingManager.detectionRing minRow maxRow minCol maxCol mapRows mapCols ring ↔
      0 ≤ row ∧ row < mapRows ∧ 0 ≤ col ∧ col < mapCols ∧
        boxOffset minRow maxRow minCol maxCol row col = ring := by
  have h1 := @boxOffset_le_iff minRow maxRow minCol maxCol row col ring
  have h2 := @boxOffset_le_iff minRow maxRow minCol maxCol row col (ring - 1)
  have h0 := @boxOffset_le_iff minRow maxRow minCol maxCol row col 0
  simp only [BuildingManager.detectionRing, List.mem_flatMap, List.mem_map, List.mem_filter,
    mem_intRange, Bool.and_eq_true, decide_eq_true_eq, Prod.mk.injEq]
  constructor
  · rintro ⟨row', ⟨ha, hb⟩, col', hfilter, he, hf⟩
    obtain ⟨⟨hc', hd⟩, hg⟩ := hfilter
    subst he
    subst hf
    omega
  · rintro ⟨hb1, hb2, hb3, hb4, hoff⟩
    refine ⟨row, ⟨by omega, by omega⟩, col, ⟨⟨by omega, by omega⟩, ?_⟩, rfl, rfl⟩
    omega

theorem fst_of_mem_detectionRingRow {row : Int} {cols : List Int} {x : Int × Int}
    (h : x ∈ cols.map fun col => (row, col)) : x.1 = row := by
  obtain ⟨col, _, rfl⟩ := List.mem_map.mp h
  rfl

theorem nodup_detectionRing {minRow maxRow minCol maxCol mapRows mapCols ring : Int} :
    (BuildingManager.detectionRing minRow maxRow minCol maxCol mapRows mapCols ring).Nodup := by
  rw [BuildingManager.detectionRing]
  refine List.nodup_flatMap.mpr ⟨?_, ?_⟩
  · intro row _
    exact ((nodup_intRange _ _).filter _).map fun a b h => by
      simpa using congrArg Prod.snd h
  · refine List.Pairwise.imp ?_ (nodup_intRange _ _)
    intro a b hne x hxa hxb
    exact hne ((fst_of_mem_detectionRingRow hxa).symm.trans (fst_of_mem_detectionRingRow hxb))

theorem mem_getBuildingDetectionArea {anchorRow anchorCol width height mapRows mapCols
    detectionRadius row col : Int} :
    (row, col) ∈ BuildingManager.getBuildingDetectionArea anchorRow anchorCol width height
        mapRows mapCols detectionRadius ↔
      0 ≤ row ∧ row < mapRows ∧ 0 ≤ col ∧ col < mapCols ∧
        1 ≤ boxOffset (anchorRow - height + 1) anchorRow (anchorCol - width + 1) anchorCol
              row col ∧
        boxOffset (anchorRow - height + 1) anchorRow (anchorCol - width + 1) anchorCol
              row col ≤ detectionRadius := by
  simp only [BuildingManager.getBuildingDetectionArea, List.mem_flatMap, mem_intRange]
  constructor
  · rintro ⟨ring, ⟨hr1, hr2⟩, hmem⟩
    rw [mem_detectionRing hr1] at hmem
    obtain ⟨a1, a2, a3, a4, a5⟩ := hmem
    omega
  · intro h
    refine ⟨boxOffset (anchorRow - height + 1) anchorRow (anchorCol - width + 1) anchorCol
      row col, ⟨by omega, by omega⟩, ?_⟩
    rw [mem_detectionRing (by omega)]
    omega

theorem nodup_getBuildingDetectionArea {anchorRow anchorCol width height mapRows mapCols
    detectionRadius : Int} :
    (BuildingManager.getBuildingDetectionArea anchorRow anchorCol width height mapRows mapCols
      detectionRadius).Nodup := by
  rw [BuildingManager.getBuildingDetectionArea]
  refine List.nodup_flatMap.mpr ⟨fun ring _ => nodup_detectionRing, ?_⟩
  refine List.Pairwise.imp_of_mem ?_ (nodup_intRange 1 detectionRadius)
  intro a b ha hb hne x hxa hxb
  obtain ⟨xr, xc⟩ := x
  rw [mem_detectionRing (mem_intRange.mp ha).1] at hxa
  rw [mem_detectionRing (mem_intRange.mp hb).1] at hxb
  omega

/-- C2: for `width, height, detectionRadius ≥ 1`, `getBuildingDetectionArea`
returns exactly the in-bounds cells whose Chebyshev offset from the footprint
bounding box `[anchorRow-height+1, anchorRow] × [anchorCol-width+1, anchorCol]`
is between 1 and `detectionRadius` (footprint cells excluded), and no cell is
listed twice. -/
theorem getBuildingDetectionArea_spec (anchorRow anchorCol width height mapRows mapCols
    detectionRadius : Int) (hw : 1 ≤ width) (hh : 1 ≤ height) (hr : 1 ≤ detectionRadius) :
    (∀ row col : Int,
      (row, col) ∈ BuildingManager.getBuildingDetectionArea anchorRow anchorCol width height
          mapRows mapCols detectionRadius ↔
        0 ≤ row ∧ row < mapRows ∧ 0 ≤ col ∧ col < mapCols ∧
          1 ≤ boxOffset (anchorRow - height + 1) anchorRow (anchorCol - width + 1) anchorCol
                row col ∧
          boxOffset (anchorRow - height + 1) anchorRow (anchorCol - width + 1) anchorCol
                row col ≤ detectionRadius) ∧
    (BuildingManager.getBuildingDetectionArea anchorRow anchorCol width height mapRows mapCols
      detectionRadius).Nodup :=
  ⟨fun _ _ => mem_getBuildingDetectionArea, nodup_getBuildingDetectionArea⟩

theorem getBuildingDetectionArea_spec_witness :
    (0, 1) ∈ BuildingManager.getBuildingDetectionArea 0 0 1 1 10 10 1 :=
  ((getBuildingDetectionArea_spec 0 0 1 1 10 10 1 (by norm_num) (by norm_num)
    (by norm_num)).1 0 1).mpr (by decide)

/-- C6: `calculateDetectionRadius` is the step function of the footprint area
`width * height`: 3 above 4, 2 on `[2,4]`, 1 at or below 1, and it is monotone
in the area. -/
theorem calculateDetectionRadius_spec (width height : Int) (hw : 1 ≤ width) (hh : 1 ≤ height) :
    (width * height > 4 → BuildingManager.calculateDetectionRadius width height = 3) ∧
    (2 ≤ width * height ∧ width * height ≤ 4 →
      BuildingManager.calculateDetectionRadius width height = 2) ∧
    (width * height ≤ 1 → BuildingManager.calculateDetectionRadius width height = 1) ∧
    (∀ width2 height2 : Int, width * height ≤ width2 * height2 →
      BuildingManager.calculateDetectionRadius width height ≤
        BuildingManager.calculateDetectionRadius width2 height2) := by
  refine ⟨?_, ?_, ?_, ?_⟩
  · intro h
    rw [BuildingManager.calculateDetectionRadius]
    split_ifs <;> omega
  · intro h
    rw [BuildingManager.calculateDetectionRadius]
    split_ifs <;> omega
  · intro h
    rw [BuildingManager.calculateDetectionRadius]
    split_ifs <;> omega
  · intro width2 height2 hle
    rw [BuildingManager.calculateDetectionRadius, BuildingManager.calculateDetectionRadius]
    split_ifs <;> omega

theorem calculateDetectionRadius_spec_witness :
    BuildingManager.calculateDetectionRadius 2 2 = 2 :=
  (calculateDetectionRadius_spec 2 2 (by norm_num) (by norm_num)).2.1 (by norm_num)


theorem firstDedupById_subset : ∀ (l : List TileOccupancyInfo), ∀ x ∈ firstDedupById l, x ∈ l := by
  intro l
  induction l using firstDedupById.induct with
  | case1 => simp [firstDedupById]
  | case2 a rest ih =>
    intro x hx
    rw [firstDedupById] at hx
    rcases List.mem_cons.mp hx with h | h
    · exact h ▸ List.mem_cons_self _ _
    · exact List.mem_cons_of_mem _ (List.mem_of_mem_filter (ih x h))

theorem firstDedupById_ids_nodup :
    ∀ (l : List TileOccupancyInfo), ((firstDedupById l).map (·.buildingId)).Nodup := by
  intro l
  induction l using firstDedupById.induct with
  | case1 => simp [firstDedupById]
  | case2 a rest ih =>
    rw [firstDedupById, List.map_cons]
    refine List.nodup_cons.mpr ⟨?_, ih⟩
    intro hmem
    obtain ⟨x, hx, hid⟩ := List.mem_map.mp hmem
    have hxf := firstDedupById_subset _ x hx
    have hpred := List.of_mem_filter hxf
    simp only [Bool.not_eq_true', decide_eq_false_iff_not] at hpred
    exact hpred hid

theorem firstDedupById_complete :
    ∀ (l : List TileOccupancyInfo), ∀ x ∈ l,
      ∃ y ∈ firstDedupById l, y.buildingId = x.buildingId := by
  intro l
  induction l using firstDedupById.induct with
  | case1 => simp
  | case2 a rest ih =>
    intro x hx
    rcases List.mem_cons.mp hx with heq | hx'
    · exact ⟨a, by rw [firstDedupById]; exact List.mem_cons_self _ _, by rw [heq]⟩
    · by_cases hid : x.buildingId = a.buildingId
      · exact ⟨a, by rw [firstDedupById]; exact List.mem_cons_self _ _, hid.symm⟩
      · have hxf : x ∈ rest.filter fun i => !(decide (i.buildingId = a.buildingId)) :=
          List.mem_filter.mpr ⟨hx', by simpa using hid⟩
        obtain ⟨y, hy, hyid⟩ := ih x hxf
        exact ⟨y, by rw [firstDedupById]; exact List.mem_cons_of_mem _ hy, hyid⟩

theorem foldl_coveredStep_filterMap (m : OccMap) :
    ∀ (area : List (Int × Int)) (acc : List TileOccupancyInfo × List String),
      area.foldl (BuildingManager.coveredStep m) acc
        = (area.filterMap (mapGet m)).foldl BuildingManager.dedupStep acc := by
  intro area
  induction area with
  | nil => intro acc; rfl
  | cons tile rest ih =>
    intro acc
    simp only [List.foldl_cons, List.filterMap_cons]
    cases hget : mapGet m tile with
    | none =>
      rw [show BuildingManager.coveredStep m acc tile = acc by
        rw [BuildingManager.coveredStep, hget]]
      exact ih acc
    | some info =>
      rw [show BuildingManager.coveredStep m acc tile = BuildingManager.dedupStep acc info by
        rw [BuildingManager.coveredStep, hget]]
      rw [List.foldl_cons]
      exact ih _

theorem filter_notMem_append (seen : List String) (id : String)
    (l : List TileOccupancyInfo) :
    (l.filter fun i => !(decide (i.buildingId ∈ seen ++ [id]))) =
      ((l.filter fun i => !(decide (i.buildingId ∈ seen))).filter
        fun i => !(decide (i.buildingId = id))) := by
  induction l with
  | nil => rfl
  | cons a rest ih =>
    by_cases h1 : a.buildingId ∈ seen
    · have e2 : (!decide (a.buildingId ∈ seen ++ [id])) = false := by
        simp [List.mem_append, h1]
      have e1 : (!decide (a.buildingId ∈ seen)) = false := by simp [h1]
      simp only [List.filter_cons, e1, e2, Bool.false_eq_true, if_false]
      exact ih
    · by_cases h2 : a.buildingId = id
      · have e2 : (!decide (a.buildingId ∈ seen ++ [id])) = false := by
          simp [List.mem_append, h2]
        have e1 : (!decide (a.buildingId ∈ seen)) = true := by simp [h1]
        have e3 : (!decide (a.buildingId = id)) = false := by simp [h2]
        simp only [List.filter_cons, e1, e2, e3, Bool.false_eq_true, if_false,
          eq_self_iff_true, if_true]
        exact ih
      · have e2 : (!decide (a.buildingId ∈ seen ++ [id])) = true := by
          simp [List.mem_append, h1, h2]
        have e1 : (!decide (a.buildingId ∈ seen)) = true := by simp [h1]
        have e3 : (!decide (a.buildingId = id)) = true := by simp [h2]
        simp only [List.filter_cons, e1, e2, e3, eq_self_iff_true, if_true]
        rw [ih]

theorem foldl_dedupStep_go :
    ∀ (hits : List TileOccupancyInfo) (acc : List TileOccupancyInfo) (seen : List String),
      (∀ s, s ∈ seen ↔ ∃ i ∈ acc, i.buildingId = s) →
      (hits.foldl BuildingManager.dedupStep (acc, seen)).1
        = acc ++ firstDedupById (hits.filter fun i => !(decide (i.buildingId ∈ seen))) := by
  intro hits
  induction hits with
  | nil =>
    intro acc seen _
    simp [firstDedupById]
  | cons info rest ih =>
    intro acc seen hinv
    simp only [List.foldl_cons, List.filter_cons]
    by_cases hmem : info.buildingId ∈ seen
    · rw [show BuildingManager.dedupStep (acc, seen) info = (acc, seen) by
        rw [BuildingManager.dedupStep]; exact if_pos hmem]
      rw [ih acc seen hinv]
      simp [hmem]
    · rw [show BuildingManager.dedupStep (acc, seen) info
          = (acc ++ [info], seen ++ [info.buildingId]) by
        rw [BuildingManager.dedupStep]; exact if_neg hmem]
      have hinv' : ∀ s, s ∈ seen ++ [info.buildingId] ↔
          ∃ i ∈ acc ++ [info], i.buildingId = s := by
        intro s
        simp only [List.mem_append, List.mem_singleton, hinv s]
        constructor
        · rintro (⟨i, hi, rfl⟩ | rfl)
          · exact ⟨i, Or.inl hi, rfl⟩
          · exact ⟨info, Or.inr rfl, rfl⟩
        · rintro ⟨i, hi | rfl, rfl⟩
          · exact Or.inl ⟨i, hi, rfl⟩
          · exact Or.inr rfl
      rw [ih _ _ hinv']
      rw [filter_notMem_append]
      have hkeep : (!(decide (info.buildingId ∈ seen))) = true := by simpa using hmem
      simp only [hkeep, if_pos]
      rw [firstDedupById]
      simp [List.append_assoc]

theorem covered_eq_firstDedup (anchorRow anchorCol width height mapRows mapCols : Int)
    (m : OccMap) (allPlaced : List BuildingManager.PlacedBuilding) (detectionRadius : Int) :
    (BuildingManager.getAdjacentBuildings anchorRow anchorCol width height mapRows mapCols m
        allPlaced detectionRadius).coveredBuildings
      = firstDedupById ((BuildingManager.getBuildingDetectionArea anchorRow anchorCol width
          height mapRows mapCols detectionRadius).filterMap (mapGet m)) := by
  simp only [BuildingManager.getAdjacentBuildings]
  rw [foldl_coveredStep_filterMap]
  rw [foldl_dedupStep_go _ [] [] (by simp)]
  simp only [List.nil_append]
  congr 1
  have hpred : (fun i : TileOccupancyInfo => !(decide (i.buildingId ∈ ([] : List String))))
      = fun _ => true := by
    funext i
    simp
  rw [hpred, List.filter_true]

/-- C3: the covered-buildings list of `getAdjacentBuildings` is the
first-discovery-order deduplication by `buildingId` of the occupancy records
met while traversing the detection area (computed with the passed
`detectionRadius`): each `buildingId` occurs at most once, every listed
record is stored at some detection-area cell, and every building with an
occupied cell inside the detection area is represented. -/
theorem getAdjacentBuildings_covered_spec (anchorRow anchorCol width height mapRows mapCols : Int)
    (m : OccMap) (allPlaced : List BuildingManager.PlacedBuilding) (detectionRadius : Int) :
    (BuildingManager.getAdjacentBuildings anchorRow anchorCol width height mapRows mapCols m
        allPlaced detectionRadius).coveredBuildings
      = firstDedupById ((BuildingManager.getBuildingDetectionArea anchorRow anchorCol width
          height mapRows mapCols detectionRadius).filterMap (mapGet m)) ∧
    (((BuildingManager.getAdjacentBuildings anchorRow anchorCol width height mapRows mapCols m
        allPlaced detectionRadius).coveredBuildings.map (·.buildingId)).Nodup) ∧
    (∀ info ∈ (BuildingManager.getAdjacentBuildings anchorRow anchorCol width height mapRows
        mapCols m allPlaced detectionRadius).coveredBuildings,
      ∃ tile ∈ BuildingManager.getBuildingDetectionArea anchorRow anchorCol width height
          mapRows mapCols detectionRadius, mapGet m tile = some info) ∧
    (∀ tile ∈ BuildingManager.getBuildingDetectionArea anchorRow anchorCol width height
        mapRows mapCols detectionRadius, ∀ info, mapGet m tile = some info →
      ∃ info2 ∈ (BuildingManager.getAdjacentBuildings anchorRow anchorCol width height mapRows
          mapCols m allPlaced detectionRadius).coveredBuildings,
        info2.buildingId = info.buildingId) := by
  have hcov := covered_eq_firstDedup anchorRow anchorCol width height mapRows mapCols m
    allPlaced detectionRadius
  refine ⟨hcov, ?_, ?_, ?_⟩
  · rw [hcov]
    exact firstDedupById_ids_nodup _
  · intro info hmem
    rw [hcov] at hmem
    exact List.mem_filterMap.mp (firstDedupById_subset _ info hmem)
  · intro tile htile info hget
    have hhit : info ∈ (BuildingManager.getBuildingDetectionArea anchorRow anchorCol width
        height mapRows mapCols detectionRadius).filterMap (mapGet m) :=
      List.mem_filterMap.mpr ⟨tile, htile, hget⟩
    obtain ⟨y, hy, hyid⟩ := firstDedupById_complete _ info hhit
    refine ⟨y, ?_, hyid⟩
    rw [hcov]
    exact hy

/-- The 2×1 building used in the concrete adjacency computations: its anchor
cell `(0, 2)` lies outside the detection area of a 1×1 building at `(0, 0)`
with radius 1, while its other cell `(0, 1)` lies inside it. -/
def infoB : TileOccupancyInfo := ⟨"B", "shop", 0, 2, 2, 1, true⟩

/-- Occupancy map holding exactly the two cells of `infoB`. -/
def mapB : OccMap := [((0, 1), infoB), ((0, 2), infoB)]

/-- The placed-buildings list matching `mapB`. -/
def placedB : List BuildingManager.PlacedBuilding := [⟨0, 2, infoB⟩]

/-- C4 counterexample: for the 1×1 building at `(0, 0)` with radius 1 and the
map `mapB`, the 2×1 building `infoB` appears in `coveredBuildings` although
its anchor cell `(0, 2)` is not in the querying building's detection area, so
"covered iff the anchor cell lies in the detection area" is false. -/
theorem covered_anchor_claim_counterexample :
    ¬(infoB ∈ (BuildingManager.getAdjacentBuildings 0 0 1 1 10 10 mapB placedB
        1).coveredBuildings ↔
      (infoB.anchorRow, infoB.anchorCol) ∈
        BuildingManager.getBuildingDetectionArea 0 0 1 1 10 10 1) := by
  decide

/-- C4 (amended): a building is listed in `coveredBuildings` exactly when at
least one cell carrying its occupancy record lies in the querying building's
detection area — membership of the anchor cell alone neither suffices as a
criterion nor is required. -/
theorem covered_id_iff_some_cell_in_area (anchorRow anchorCol width height mapRows mapCols : Int)
    (m : OccMap) (allPlaced : List BuildingManager.PlacedBuilding) (detectionRadius : Int)
    (id : String) :
    (∃ info2 ∈ (BuildingManager.getAdjacentBuildings anchorRow anchorCol width height mapRows
        mapCols m allPlaced detectionRadius).coveredBuildings, info2.buildingId = id) ↔
    (∃ tile ∈ BuildingManager.getBuildingDetectionArea anchorRow anchorCol width height mapRows
        mapCols detectionRadius, ∃ info, mapGet m tile = some info ∧ info.buildingId = id) := by
  have hcov := covered_eq_firstDedup anchorRow anchorCol width height mapRows mapCols m
    allPlaced detectionRadius
  constructor
  · rintro ⟨info2, hmem, rfl⟩
    rw [hcov] at hmem
    obtain ⟨tile, htile, hget⟩ := List.mem_filterMap.mp (firstDedupById_subset _ _ hmem)
    exact ⟨tile, htile, info2, hget, rfl⟩
  · rintro ⟨tile, htile, info, hget, rfl⟩
    have hhit : info ∈ (BuildingManager.getBuildingDetectionArea anchorRow anchorCol width
        height mapRows mapCols detectionRadius).filterMap (mapGet m) :=
      List.mem_filterMap.mpr ⟨tile, htile, hget⟩
    obtain ⟨y, hy, hyid⟩ := firstDedupById_complete _ info hhit
    refine ⟨y, ?_, hyid⟩
    rw [hcov]
    exact hy

/-- The condition under which the covering scan of `getAdjacentBuildings`
(BuildingManager.ts:226-263) records a candidate building: it is not anchored
at the queried anchor, and its own detection area — computed with its own
radius `calculateDetectionRadius(width, height)` — meets one of the queried
building's occupied tiles. -/
def coveringCond (anchorRow anchorCol mapRows mapCols : Int)
    (currentBuildingTiles : List (Int × Int)) (b : BuildingManager.PlacedBuilding) : Bool :=
  !(decide (b.row = anchorRow ∧ b.col = anchorCol)) &&
  (currentBuildingTiles.any fun currentTile =>
    (BuildingManager.getBuildingDetectionArea b.row b.col b.buildingInfo.width
      b.buildingInfo.height mapRows mapCols
      (BuildingManager.calculateDetectionRadius b.buildingInfo.width
        b.buildingInfo.height)).any fun otherTile => decide (currentTile = otherTile))

theorem coveringCond_eq_true_iff {anchorRow anchorCol mapRows mapCols : Int}
    {tiles : List (Int × Int)} {b : BuildingManager.PlacedBuilding} :
    coveringCond anchorRow anchorCol mapRows mapCols tiles b = true ↔
      ¬(b.row = anchorRow ∧ b.col = anchorCol) ∧
      ∃ t ∈ tiles, t ∈ BuildingManager.getBuildingDetectionArea b.row b.col
        b.buildingInfo.width b.buildingInfo.height mapRows mapCols
        (BuildingManager.calculateDetectionRadius b.buildingInfo.width
          b.buildingInfo.height) := by
  simp only [coveringCond, Bool.and_eq_true, Bool.not_eq_true', decide_eq_false_iff_not,
    List.any_eq_true, decide_eq_true_eq]
  constructor
  · rintro ⟨h1, t, ht, t2, ht2, rfl⟩
    exact ⟨h1, t, ht, ht2⟩
  · rintro ⟨h1, t, ht, ht2⟩
    exact ⟨h1, t, ht, t, ht2, rfl⟩

theorem coveringStep_eq (anchorRow anchorCol mapRows mapCols : Int)
    (tiles : List (Int × Int)) (acc : List TileOccupancyInfo × List String)
    (b : BuildingManager.PlacedBuilding) :
    BuildingManager.coveringStep anchorRow anchorCol mapRows mapCols tiles acc b =
      if coveringCond anchorRow anchorCol mapRows mapCols tiles b then
        BuildingManager.dedupStep acc b.buildingInfo
      else acc := by
  by_cases h1 : b.row = anchorRow ∧ b.col = anchorCol
  · simp [BuildingManager.coveringStep, coveringCond, h1]
  · by_cases h2 : (tiles.any fun currentTile =>
        (BuildingManager.getBuildingDetectionArea b.row b.col b.buildingInfo.width
          b.buildingInfo.height mapRows mapCols
          (BuildingManager.calculateDetectionRadius b.buildingInfo.width
            b.buildingInfo.height)).any fun otherTile =>
              decide (currentTile = otherTile)) = true
    · simp [BuildingManager.coveringStep, coveringCond, h1, h2]
    · simp [BuildingManager.coveringStep, coveringCond, h1, h2]

theorem foldl_coveringStep_go (anchorRow anchorCol mapRows mapCols : Int)
    (tiles : List (Int × Int)) :
    ∀ (l : List BuildingManager.PlacedBuilding) (acc : List TileOccupancyInfo)
      (seen : List String),
      (∀ s, s ∈ seen ↔ ∃ i ∈ acc, i.buildingId = s) →
      (∀ b ∈ l, b.buildingInfo.buildingId ∉ seen) →
      ((l.map fun b => b.buildingInfo.buildingId).Nodup) →
      ((l.foldl (BuildingManager.coveringStep anchorRow anchorCol mapRows mapCols tiles)
        (acc, seen)).1
        = acc ++ (l.filter (coveringCond anchorRow anchorCol mapRows mapCols tiles)).map
            (·.buildingInfo)) := by
  intro l
  induction l with
  | nil =>
    intro acc seen _ _ _
    simp
  | cons b rest ih =>
    intro acc seen hinv hdisj hnd
    simp only [List.foldl_cons, List.filter_cons]
    rw [coveringStep_eq]
    have hbid : b.buildingInfo.buildingId ∉ seen := hdisj b (List.mem_cons_self _ _)
    have hhead : b.buildingInfo.buildingId ∉ rest.map fun x => x.buildingInfo.buildingId :=
      (List.nodup_cons.mp (by simpa using hnd)).1
    by_cases hc : coveringCond anchorRow anchorCol mapRows mapCols tiles b = true
    · rw [if_pos hc, hc]
      rw [show BuildingManager.dedupStep (acc, seen) b.buildingInfo
          = (acc ++ [b.buildingInfo], seen ++ [b.buildingInfo.buildingId]) by
        rw [BuildingManager.dedupStep]; exact if_neg hbid]
      have hinv' : ∀ s, s ∈ seen ++ [b.buildingInfo.buildingId] ↔
          ∃ i ∈ acc ++ [b.buildingInfo], i.buildingId = s := by
        intro s
        simp only [List.mem_append, List.mem_singleton, hinv s]
        constructor
        · rintro (⟨i, hi, rfl⟩ | rfl)
          · exact ⟨i, Or.inl hi, rfl⟩
          · exact ⟨b.buildingInfo, Or.inr rfl, rfl⟩
        · rintro ⟨i, hi | rfl, rfl⟩
          · exact Or.inl ⟨i, hi, rfl⟩
          · exact Or.inr rfl
      have hdisj' : ∀ b2 ∈ rest, b2.buildingInfo.buildingId ∉
          seen ++ [b.buildingInfo.buildingId] := by
        intro b2 hb2 hmem
        rcases List.mem_append.mp hmem with h | h
        · exact hdisj b2 (List.mem_cons_of_mem _ hb2) h
        · rw [List.mem_singleton] at h
          exact hhead (h ▸ List.mem_map_of_mem _ hb2)
      rw [ih _ _ hinv' hdisj' (List.nodup_cons.mp (by simpa using hnd)).2]
      simp [List.append_assoc]
    · rw [if_neg hc]
      have hcf : coveringCond anchorRow anchorCol mapRows mapCols tiles b = false :=
        Bool.eq_false_iff.mpr hc
      rw [hcf]
      simp only [Bool.false_eq_true, if_false]
      exact ih _ _ hinv (fun b2 hb2 => hdisj b2 (List.mem_cons_of_mem _ hb2))
        (List.nodup_cons.mp (by simpa using hnd)).2

theorem covering_eq_filterMap (anchorRow anchorCol width height mapRows mapCols : Int)
    (m : OccMap) (allPlaced : List BuildingManager.PlacedBuilding) (detectionRadius : Int)
    (hnd : (allPlaced.map fun b => b.buildingInfo.buildingId).Nodup) :
    (BuildingManager.getAdjacentBuildings anchorRow anchorCol width height mapRows mapCols m
        allPlaced detectionRadius).coveringBuildings
      = (allPlaced.filter (coveringCond anchorRow anchorCol mapRows mapCols
          (BuildingManager.getBuildingOccupiedTiles anchorRow anchorCol width height))).map
          (·.buildingInfo) := by
  simp only [BuildingManager.getAdjacentBuildings]
  rw [foldl_coveringStep_go anchorRow anchorCol mapRows mapCols
    (BuildingManager.getBuildingOccupiedTiles anchorRow anchorCol width height)
    allPlaced [] [] (by simp) (by simp) hnd]
  simp

/-- C5: with pairwise-distinct `buildingId`s, a building `B` of
`allPlacedBuildings` appears — exactly once — in `coveringBuildings` iff its
anchor differs from the queried anchor and `B`'s own detection area, computed
with `B`'s own radius `calculateDetectionRadius(B.width, B.height)` rather
than the passed `detectionRadius`, contains at least one occupied tile of the
queried building; the covering list is exactly the in-order filter of
`allPlacedBuildings` by that condition. -/
theorem getAdjacentBuildings_covering_spec (anchorRow anchorCol width height mapRows
    mapCols : Int) (m : OccMap) (allPlaced : List BuildingManager.PlacedBuilding)
    (detectionRadius : Int)
    (hnd : (allPlaced.map fun b => b.buildingInfo.buildingId).Nodup) :
    ((BuildingManager.getAdjacentBuildings anchorRow anchorCol width height mapRows mapCols m
        allPlaced detectionRadius).coveringBuildings
      = (allPlaced.filter (coveringCond anchorRow anchorCol mapRows mapCols
          (BuildingManager.getBuildingOccupiedTiles anchorRow anchorCol width height))).map
          (·.buildingInfo)) ∧
    (((BuildingManager.getAdjacentBuildings anchorRow anchorCol width height mapRows mapCols m
        allPlaced detectionRadius).coveringBuildings.map (·.buildingId)).Nodup) ∧
    (∀ b ∈ allPlaced,
      (b.buildingInfo ∈ (BuildingManager.getAdjacentBuildings anchorRow anchorCol width height
          mapRows mapCols m allPlaced detectionRadius).coveringBuildings ↔
        ¬(b.row = anchorRow ∧ b.col = anchorCol) ∧
        ∃ t ∈ BuildingManager.getBuildingOccupiedTiles anchorRow anchorCol width height,
          t ∈ BuildingManager.getBuildingDetectionArea b.row b.col b.buildingInfo.width
            b.buildingInfo.height mapRows mapCols
            (BuildingManager.calculateDetectionRadius b.buildingInfo.width
              b.buildingInfo.height))) ∧
    (∀ b ∈ allPlaced,
      b.buildingInfo ∈ (BuildingManager.getAdjacentBuildings anchorRow anchorCol width height
          mapRows mapCols m allPlaced detectionRadius).coveringBuildings →
      (BuildingManager.getAdjacentBuildings anchorRow anchorCol width height mapRows mapCols m
        allPlaced detectionRadius).coveringBuildings.count b.buildingInfo = 1) := by
  have hcov := covering_eq_filterMap anchorRow anchorCol width height mapRows mapCols m
    allPlaced detectionRadius hnd
  have hidnd : ((BuildingManager.getAdjacentBuildings anchorRow anchorCol width height mapRows
      mapCols m allPlaced detectionRadius).coveringBuildings.map (·.buildingId)).Nodup := by
    rw [hcov, List.map_map]
    exact hnd.sublist ((List.filter_sublist _).map _)
  refine ⟨hcov, hidnd, ?_, ?_⟩
  · intro b hb
    rw [hcov]
    constructor
    · intro hmem
      obtain ⟨b2, hb2, hbeq⟩ := List.mem_map.mp hmem
      have hb2' : b2 ∈ allPlaced := List.mem_of_mem_filter hb2
      have hbb : b2 = b :=
        List.inj_on_of_nodup_map hnd hb2' hb (by rw [hbeq])
      subst hbb
      exact coveringCond_eq_true_iff.mp (List.of_mem_filter hb2)
    · intro hcond
      exact List.mem_map_of_mem _ (List.mem_filter.mpr ⟨hb, coveringCond_eq_true_iff.mpr hcond⟩)
  · intro b _ hmem
    exact List.count_eq_one_of_mem (List.Nodup.of_map _ hidnd) hmem

namespace CharmCalculationSystem

/-- `BuildingCharmInfo` (CharmCalculationSystem.ts:9-22). -/
structure BuildingCharmInfo where
  buildingId : String
  buildingType : String
  baseCharmValue : Int
  coveredBuildingsCount : Int
  totalCharmValue : Int
  position : Int × Int
  deriving DecidableEq, Repr

/-- `COVERAGE_BONUS_PER_BUILDING` (CharmCalculationSystem.ts:55). -/
def COVERAGE_BONUS_PER_BUILDING : Int := 1

/-- `CharmCalculationSystem.calculateBuildingCharm` (CharmCalculationSystem.ts:69-98).
The `coveredBuildings` argument may be null (`none`); the write into the
static `buildingCharmValues` store (line 86) is state threaded separately in
`SystemState`, and the returned record is modelled here. -/
def calculateBuildingCharm (baseCharmValue : Int) (buildingType : String)
    (coveredBuildings : Option (List TileOccupancyInfo)) (buildingId : String)
    (position : Int × Int) : BuildingCharmInfo :=
  let coveredBuildingsCount : Int :=
    match coveredBuildings with
    | some l => (l.length : Int)
    | none => 0
  let coverageBonus := coveredBuildingsCount * COVERAGE_BONUS_PER_BUILDING
  let totalCharmValue := baseCharmValue + coverageBonus
  ⟨buildingId, buildingType, baseCharmValue, coveredBuildingsCount, totalCharmValue, position⟩

/-- `CharmCalculationResult` (CharmCalculationSystem.ts:28-37); the
`calculationTimestamp` field (`Date.now()`) is engine wall-clock state and is
omitted. -/
structure CharmCalculationResult where
  buildingCharmInfos : List BuildingCharmInfo
  totalMapCharmValue : Int
  totalBuildingCount : Nat
  deriving DecidableEq, Repr

/-- `CharmCalculationSystem.calculateMapCharm` (CharmCalculationSystem.ts:105-121). -/
def calculateMapCharm (buildingCharmInfos : List BuildingCharmInfo) : CharmCalculationResult :=
  let totalMapCharmValue :=
    buildingCharmInfos.foldl (fun sum info => sum + info.totalCharmValue) 0
  ⟨buildingCharmInfos, totalMapCharmValue, buildingCharmInfos.length⟩

/-- `CharmCalculationSystem.removeBuildingCharmValue` (CharmCalculationSystem.ts:232-237):
delete the entry when present. -/
def removeBuildingCharmValue (buildingCharmValues : List (String × Int))
    (buildingId : String) : List (String × Int) :=
  if buildingCharmValues.any fun e => decide (e.1 = buildingId) then
    buildingCharmValues.filter fun e => !(decide (e.1 = buildingId))
  else buildingCharmValues

end CharmCalculationSystem

theorem foldl_add_totalCharm (l : List CharmCalculationSystem.BuildingCharmInfo) :
    ∀ s : Int, l.foldl (fun sum info => sum + info.totalCharmValue) s
      = s + (l.map (·.totalCharmValue)).sum := by
  induction l with
  | nil =>
    intro s
    simp
  | cons a rest ih =>
    intro s
    simp only [List.foldl_cons, List.map_cons, List.sum_cons, ih]
    omega

/-- C7: `calculateBuildingCharm` returns
`totalCharmValue = baseCharmValue + coveredCount * 1`, where `coveredCount`
is the length of the covered-buildings list and 0 when that list is null,
and `calculateMapCharm` returns the sum of the per-building totals together
with the count of buildings. -/
theorem charm_calculation_spec :
    (∀ (baseCharmValue : Int) (buildingType : String)
      (coveredBuildings : Option (List TileOccupancyInfo)) (buildingId : String)
      (position : Int × Int),
      (CharmCalculationSystem.calculateBuildingCharm baseCharmValue buildingType
          coveredBuildings buildingId position).totalCharmValue
        = baseCharmValue + (coveredBuildings.elim 0 fun l => (l.length : Int)) * 1 ∧
      (CharmCalculationSystem.calculateBuildingCharm baseCharmValue buildingType
          coveredBuildings buildingId position).coveredBuildingsCount
        = (coveredBuildings.elim 0 fun l => (l.length : Int))) ∧
    (∀ infos : List CharmCalculationSystem.BuildingCharmInfo,
      (CharmCalculationSystem.calculateMapCharm infos).totalMapCharmValue
        = (infos.map (·.totalCharmValue)).sum ∧
      (CharmCalculationSystem.calculateMapCharm infos).totalBuildingCount = infos.length) := by
  constructor
  · intro base buildingType covered buildingId position
    cases covered <;>
      simp [CharmCalculationSystem.calculateBuildingCharm,
        CharmCalculationSystem.COVERAGE_BONUS_PER_BUILDING]
  · intro infos
    constructor
    · simp only [CharmCalculationSystem.calculateMapCharm]
      rw [foldl_add_totalCharm]
      simp
    · rfl

namespace TileOccupancyManager

/-- `TileOccupancyManager.markTilesAsOccupied` (TileOccupancyManager.ts:124-148):
build one shared occupancy record and set it at every footprint cell; width
and height are read off the `BuildInfo` component and passed here directly.
The trailing `updateReadonlyFields` call refreshes editor-only fields and
display components. -/
def markTilesAsOccupied (m : OccMap) (anchorRow anchorCol : Int) (buildingType : String)
    (width height : Int) (buildingId : String) (buildingNodeValid : Bool) : OccMap :=
  let occupancyInfo : TileOccupancyInfo :=
    ⟨buildingId, buildingType, anchorRow, anchorCol, width, height, buildingNodeValid⟩
  (intRange (anchorRow - height + 1) anchorRow).foldl (fun m1 r =>
    (intRange (anchorCol - width + 1) anchorCol).foldl (fun m2 c =>
      mapSet m2 (r, c) occupancyInfo) m1) m

/-- `TileOccupancyManager.clearTileOccupancyByBuildingId`
(TileOccupancyManager.ts:271-286): collect the keys whose record carries the
id, then delete each of them. -/
def clearTileOccupancyByBuildingId (m : OccMap) (buildingId : String) : OccMap :=
  let keysToDelete := (m.filter fun e => decide (e.2.buildingId = buildingId)).map (·.1)
  keysToDelete.foldl mapDelete m

/-- `TileOccupancyManager.getAllPlacedBuildings` (TileOccupancyManager.ts:595-610):
keep only the entries whose key is the record's anchor cell (the TS code
compares the string `anchorRow_anchorCol` with the tile key). -/
def getAllPlacedBuildings (m : OccMap) : List BuildingManager.PlacedBuilding :=
  m.filterMap fun e =>
    if (e.2.anchorRow, e.2.anchorCol) = e.1 then
      some ⟨e.2.anchorRow, e.2.anchorCol, e.2⟩
    else none

/-- `TileOccupancyManager.getBuildingInfoAt` (TileOccupancyManager.ts:324-327). -/
def getBuildingInfoAt (m : OccMap) (row col : Int) : Option TileOccupancyInfo :=
  mapGet m (row, col)

/-- The mutable state `removeBuilding` acts on: the occupancy map of
`TileOccupancyManager` together with the static `buildingCharmValues` store
of `CharmCalculationSystem`. -/
structure SystemState where
  tileOccupancyMap : OccMap
  buildingCharmValues : List (String × Int)
  deriving DecidableEq, Repr

/-- `TileOccupancyManager.removeBuilding` (TileOccupancyManager.ts:337-380).
`some ()` stands for the returned building node (the `destroyNode = false`
branch), `none` for a `null` return.  When the stored node reference is
valid the charm entry is removed (via `BuildingManager.removeBuildingCharmValue`,
BuildingManager.ts:426-439) and the occupancy cleared; in the invalid-node
fallback (lines 376-379) only the occupancy records are cleared.  Engine
effects (detail-button cleanup, `BuildInfo` position reset, node destruction,
UI refresh) are outside the state; the adjacency/charm recompute triggered
through `updateReadonlyFields` rewrites charm entries only for buildings
still occupying cells, none of which carry the removed `buildingId`. -/
def removeBuilding (s : SystemState) (row col : Int) (destroyNode : Bool) :
    Option Unit × SystemState :=
  match getBuildingInfoAt s.tileOccupancyMap row col with
  | none => (none, s)
  | some occupancyInfo =>
    if occupancyInfo.buildingNodeValid then
      let charm := CharmCalculationSystem.removeBuildingCharmValue s.buildingCharmValues
        occupancyInfo.buildingId
      let m2 := clearTileOccupancyByBuildingId s.tileOccupancyMap occupancyInfo.buildingId
      if destroyNode then (none, ⟨m2, charm⟩) else (some (), ⟨m2, charm⟩)
    else
      (none, ⟨clearTileOccupancyByBuildingId s.tileOccupancyMap occupancyInfo.buildingId,
        s.buildingCharmValues⟩)

/-- `TileOccupancyManager.clearAllOccupancy` (TileOccupancyManager.ts:315-319). -/
def clearAllOccupancy (_m : OccMap) : OccMap := []

end TileOccupancyManager

theorem foldl_mapDelete_eq_filter :
    ∀ (keys : List (Int × Int)) (m : OccMap),
      keys.foldl mapDelete m = m.filter fun e => !(decide (e.1 ∈ keys)) := by
  intro keys
  induction keys with
  | nil =>
    intro m
    simp only [List.foldl_nil]
    have hp : (fun e : (Int × Int) × TileOccupancyInfo =>
        !(decide (e.1 ∈ ([] : List (Int × Int))))) = fun _ => true := by
      funext e
      simp
    rw [hp, List.filter_true]
  | cons k ks ih =>
    intro m
    simp only [List.foldl_cons]
    rw [ih, mapDelete, List.filter_filter]
    have hp : ∀ e : (Int × Int) × TileOccupancyInfo,
        ((!(decide (e.1 ∈ ks))) && !(decide (e.1 = k)))
          = !(decide (e.1 ∈ k :: ks)) := by
      intro e
      by_cases h1 : e.1 = k <;> by_cases h2 : e.1 ∈ ks <;> simp [h1, h2]
    exact List.filter_congr fun e _ => hp e

theorem mem_clearTileOccupancyByBuildingId {m : OccMap} {buildingId : String}
    {e : (Int × Int) × TileOccupancyInfo} :
    e ∈ TileOccupancyManager.clearTileOccupancyByBuildingId m buildingId ↔
      e ∈ m ∧ ¬∃ info2, (e.1, info2) ∈ m ∧ info2.buildingId = buildingId := by
  simp only [TileOccupancyManager.clearTileOccupancyByBuildingId]
  rw [foldl_mapDelete_eq_filter, List.mem_filter]
  simp only [Bool.not_eq_true', decide_eq_false_iff_not, List.mem_map, List.mem_filter,
    decide_eq_true_eq]
  constructor
  · rintro ⟨hmem, hkeys⟩
    refine ⟨hmem, ?_⟩
    rintro ⟨info2, hmem2, hid⟩
    exact hkeys ⟨(e.1, info2), ⟨hmem2, hid⟩, rfl⟩
  · rintro ⟨hmem, hno⟩
    refine ⟨hmem, ?_⟩
    rintro ⟨e2, ⟨hmem2, hid⟩, hkey⟩
    refine hno ⟨e2.2, ?_, hid⟩
    rw [← hkey]
    exact hmem2

theorem mem_removeBuildingCharmValue {charm : List (String × Int)} {buildingId : String}
    {e : String × Int}
    (h : e ∈ CharmCalculationSystem.removeBuildingCharmValue charm buildingId) :
    e ∈ charm ∧ (e.1 = buildingId → (charm.any fun e2 => decide (e2.1 = buildingId)) = false) := by
  rw [CharmCalculationSystem.removeBuildingCharmValue] at h
  by_cases hany : (charm.any fun e2 => decide (e2.1 = buildingId)) = true
  · rw [if_pos hany] at h
    refine ⟨List.mem_of_mem_filter h, fun hid => ?_⟩
    have := List.of_mem_filter h
    simp only [Bool.not_eq_true', decide_eq_false_iff_not] at this
    exact absurd hid this
  · rw [if_neg hany] at h
    exact ⟨h, fun _ => Bool.eq_false_iff.mpr hany⟩

theorem removeBuilding_state_eq_of_some {s : TileOccupancyManager.SystemState}
    {row col : Int} {destroyNode : Bool} {info : TileOccupancyInfo}
    (hsome : TileOccupancyManager.getBuildingInfoAt s.tileOccupancyMap row col = some info) :
    (TileOccupancyManager.removeBuilding s row col destroyNode).2 =
      ⟨TileOccupancyManager.clearTileOccupancyByBuildingId s.tileOccupancyMap info.buildingId,
        if info.buildingNodeValid then
          CharmCalculationSystem.removeBuildingCharmValue s.buildingCharmValues info.buildingId
        else s.buildingCharmValues⟩ := by
  simp only [TileOccupancyManager.removeBuilding, hsome]
  by_cases hv : info.buildingNodeValid <;> cases destroyNode <;> simp [hv]

/-- Concrete occupancy record whose stored node reference is invalid
(`buildingNode && buildingNode.isValid` false). -/
def infoX : TileOccupancyInfo := ⟨"X", "ruin", 0, 0, 1, 1, false⟩

/-- State with `infoX` occupying `(0, 0)` and a stored charm entry for it. -/
def stateX : TileOccupancyManager.SystemState := ⟨[((0, 0), infoX)], [("X", 5)]⟩

/-- C8 counterexample: in `stateX` a record with `buildingId` `"X"` exists at
`(0, 0)`, but because its stored node reference is invalid,
`removeBuilding(0, 0)` takes the fallback branch and leaves the stored charm
entry for `"X"` in place — contradicting the claim that the charm entry is
always removed. -/
theorem removeBuilding_charm_counterexample :
    TileOccupancyManager.getBuildingInfoAt stateX.tileOccupancyMap 0 0 = some infoX ∧
    (TileOccupancyManager.removeBuilding stateX 0 0 true).2.buildingCharmValues
      = [("X", 5)] ∧
    (TileOccupancyManager.removeBuilding stateX 0 0 true).2.tileOccupancyMap = [] := by
  refine ⟨rfl, ?_, ?_⟩ <;> decide

/-- C8 (amended): `removeBuilding(row, col)` at an unoccupied cell returns
null and changes neither the occupancy map nor the stored charm entries;
where a record with `buildingId` `B` exists, every occupancy entry carrying
`B` is cleared, and — provided the stored building-node reference is valid —
`B`'s stored charm entry is removed as well (the invalid-node fallback clears
only the occupancy records). -/
theorem removeBuilding_spec (s : TileOccupancyManager.SystemState) (row col : Int)
    (destroyNode : Bool) :
    (TileOccupancyManager.getBuildingInfoAt s.tileOccupancyMap row col = none →
      TileOccupancyManager.removeBuilding s row col destroyNode = (none, s)) ∧
    (∀ info, TileOccupancyManager.getBuildingInfoAt s.tileOccupancyMap row col = some info →
      (∀ e ∈ (TileOccupancyManager.removeBuilding s row col
          destroyNode).2.tileOccupancyMap, e.2.buildingId ≠ info.buildingId) ∧
      (info.buildingNodeValid = true →
        ∀ e ∈ (TileOccupancyManager.removeBuilding s row col
            destroyNode).2.buildingCharmValues, e.1 ≠ info.buildingId)) := by
  constructor
  · intro hnone
    simp only [TileOccupancyManager.removeBuilding, hnone]
  · intro info hsome
    rw [removeBuilding_state_eq_of_some hsome]
    constructor
    · intro e hmem
      obtain ⟨hmem', hno⟩ := mem_clearTileOccupancyByBuildingId.mp hmem
      intro hid
      exact hno ⟨e.2, hmem', hid⟩
    · intro hv e hmem
      rw [hv] at hmem
      simp only [if_true] at hmem
      obtain ⟨hmem', himp⟩ := mem_removeBuildingCharmValue hmem
      intro hid
      have hany : (s.buildingCharmValues.any fun e2 => decide (e2.1 = info.buildingId))
          = true :=
        List.any_eq_true.mpr ⟨e, hmem', by simp [hid]⟩
      rw [himp hid] at hany
      cases hany

theorem mapSet_of_not_has {m : OccMap} {k : Int × Int} {v : TileOccupancyInfo}
    (h : mapHas m k = false) : mapSet m k v = m ++ [(k, v)] := by
  rw [mapSet, h]
  simp

theorem not_mem_keys_of_not_has {m : OccMap} {k : Int × Int}
    (h : mapHas m k = false) : k ∉ m.map (·.1) := by
  intro hk
  obtain ⟨e, he, hke⟩ := List.mem_map.mp hk
  have : (k, e.2) ∈ m := by
    rw [← hke]
    exact he
  exact mapHas_eq_false_iff.mp h e.2 this

theorem foldl_foldl_flatMap {α β γ : Type} (f : γ → α → γ) (rows : List β)
    (g : β → List α) (init : γ) :
    rows.foldl (fun acc r => (g r).foldl f acc) init = (rows.flatMap g).foldl f init := by
  induction rows generalizing init with
  | nil => rfl
  | cons r rest ih => simp only [List.foldl_cons, List.flatMap_cons, List.foldl_append, ih]

theorem markTiles_eq_foldl (m : OccMap) (anchorRow anchorCol : Int) (buildingType : String)
    (width height : Int) (buildingId : String) (nodeValid : Bool) :
    TileOccupancyManager.markTilesAsOccupied m anchorRow anchorCol buildingType width height
        buildingId nodeValid
      = (BuildingManager.getBuildingOccupiedTiles anchorRow anchorCol width height).foldl
          (fun m2 c => mapSet m2 c
            ⟨buildingId, buildingType, anchorRow, anchorCol, width, height, nodeValid⟩) m := by
  simp only [TileOccupancyManager.markTilesAsOccupied, BuildingManager.getBuildingOccupiedTiles]
  rw [← foldl_foldl_flatMap]
  have hfun : ∀ m1 : OccMap, ∀ r : Int,
      ((intRange (anchorCol - width + 1) anchorCol).map fun c => (r, c)).foldl
        (fun m2 c => mapSet m2 c
          ⟨buildingId, buildingType, anchorRow, anchorCol, width, height, nodeValid⟩) m1
      = (intRange (anchorCol - width + 1) anchorCol).foldl
          (fun m2 c => mapSet m2 (r, c)
            ⟨buildingId, buildingType, anchorRow, anchorCol, width, height, nodeValid⟩) m1 := by
    intro m1 r
    rw [List.foldl_map]
  simp only [hfun]

theorem foldl_mapSet_append (info : TileOccupancyInfo) :
    ∀ (cells : List (Int × Int)) (m : OccMap),
      (∀ c ∈ cells, mapHas m c = false) → cells.Nodup →
      cells.foldl (fun m2 c => mapSet m2 c info) m = m ++ (cells.map fun c => (c, info)) := by
  intro cells
  induction cells with
  | nil =>
    intro m _ _
    simp
  | cons c rest ih =>
    intro m hfree hnd
    simp only [List.foldl_cons]
    rw [mapSet_of_not_has (hfree c (List.mem_cons_self _ _))]
    rw [ih (m ++ [(c, info)]) ?_ (List.nodup_cons.mp hnd).2]
    · simp [List.append_assoc]
    · intro c2 hc2
      rw [mapHas_eq_false_iff]
      intro info2 hmem2
      rcases List.mem_append.mp hmem2 with h | h
      · exact mapHas_eq_false_iff.mp (hfree c2 (List.mem_cons_of_mem _ hc2)) info2 h
      · rw [List.mem_singleton] at h
        have : c2 = c := congrArg Prod.fst h
        exact (List.nodup_cons.mp hnd).1 (this ▸ hc2)

theorem mem_getBuildingOccupiedTiles {anchorRow anchorCol width height r c : Int} :
    (r, c) ∈ BuildingManager.getBuildingOccupiedTiles anchorRow anchorCol width height ↔
      anchorRow - height + 1 ≤ r ∧ r ≤ anchorRow ∧
        anchorCol - width + 1 ≤ c ∧ c ≤ anchorCol := by
  simp only [BuildingManager.getBuildingOccupiedTiles, List.mem_flatMap, List.mem_map,
    mem_intRange, Prod.mk.injEq]
  constructor
  · rintro ⟨r', ⟨h1, h2⟩, c', ⟨h3, h4⟩, rfl, rfl⟩
    exact ⟨h1, h2, h3, h4⟩
  · rintro ⟨h1, h2, h3, h4⟩
    exact ⟨r, ⟨h1, h2⟩, c, ⟨h3, h4⟩, rfl, rfl⟩

theorem nodup_getBuildingOccupiedTiles {anchorRow anchorCol width height : Int} :
    (BuildingManager.getBuildingOccupiedTiles anchorRow anchorCol width height).Nodup := by
  rw [BuildingManager.getBuildingOccupiedTiles]
  refine List.nodup_flatMap.mpr ⟨?_, ?_⟩
  · intro r _
    exact (nodup_intRange _ _).map fun a b h => by simpa using congrArg Prod.snd h
  · refine List.Pairwise.imp ?_ (nodup_intRange _ _)
    intro a b hne x hxa hxb
    exact hne ((fst_of_mem_detectionRingRow hxa).symm.trans (fst_of_mem_detectionRingRow hxb))

/-- The occupancy-map invariant of the specification: each cell key appears at
most once; records sharing a `buildingId` are identical; and the cells
holding a building's record are exactly its footprint rectangle
`anchorRow - height + 1 ≤ r ≤ anchorRow`,
`anchorCol - width + 1 ≤ c ≤ anchorCol`. -/
def OccInvariant (m : OccMap) : Prop :=
  (m.map (·.1)).Nodup ∧
  (∀ e1 ∈ m, ∀ e2 ∈ m, e1.2.buildingId = e2.2.buildingId → e1.2 = e2.2) ∧
  (∀ e ∈ m, ∀ rc : Int × Int,
    ((rc, e.2) ∈ m ↔
      e.2.anchorRow - e.2.height + 1 ≤ rc.1 ∧ rc.1 ≤ e.2.anchorRow ∧
      e.2.anchorCol - e.2.width + 1 ≤ rc.2 ∧ rc.2 ≤ e.2.anchorCol))

/-- The occupancy maps reachable through the manager's mutating operations:
the empty initial map, a successful placement (`canPlaceBuildingAt` guard
followed by `markTilesAsOccupied` with a fresh `buildingId`, as in
`placeBuildingAtPosition`), a removal (`removeBuilding` /
`clearTileOccupancyByBuildingId`), and `clearAllOccupancy`. -/
inductive ReachableOcc : OccMap → Prop
  | empty : ReachableOcc []
  | place (m : OccMap) (row col : Int) (buildingType : String) (width height : Int)
      (buildingId : String) (nodeValid : Bool) :
      ReachableOcc m →
      TileOccupancyManager.canPlaceBuildingAt m row col width height = true →
      (∀ e ∈ m, e.2.buildingId ≠ buildingId) →
      ReachableOcc (TileOccupancyManager.markTilesAsOccupied m row col buildingType
        width height buildingId nodeValid)
  | removeById (m : OccMap) (buildingId : String) :
      ReachableOcc m →
      ReachableOcc (TileOccupancyManager.clearTileOccupancyByBuildingId m buildingId)
  | clearAll (m : OccMap) : ReachableOcc m → ReachableOcc []

theorem occInvariant_empty : OccInvariant [] := by
  refine ⟨by simp, by simp, by simp⟩

theorem value_eq_of_keys_nodup {m : OccMap} (h : (m.map (·.1)).Nodup) {k : Int × Int}
    {a b : TileOccupancyInfo} (ha : (k, a) ∈ m) (hb : (k, b) ∈ m) : a = b :=
  congrArg Prod.snd (List.inj_on_of_nodup_map h ha hb rfl)

theorem occInvariant_clearById (m : OccMap) (buildingId : String)
    (h : OccInvariant m) :
    OccInvariant (TileOccupancyManager.clearTileOccupancyByBuildingId m buildingId) := by
  obtain ⟨hkeys, hsame, hcells⟩ := h
  have hrepr : TileOccupancyManager.clearTileOccupancyByBuildingId m buildingId
      = m.filter fun e => !(decide (e.1 ∈
          ((m.filter fun e2 => decide (e2.2.buildingId = buildingId)).map (·.1)))) := by
    simp only [TileOccupancyManager.clearTileOccupancyByBuildingId]
    rw [foldl_mapDelete_eq_filter]
  refine ⟨?_, ?_, ?_⟩
  · rw [hrepr]
    exact hkeys.sublist ((List.filter_sublist _).map _)
  · intro e1 h1 e2 h2
    exact hsame e1 (List.mem_of_mem_filter (hrepr ▸ h1)) e2
      (List.mem_of_mem_filter (hrepr ▸ h2))
  · intro e he rc
    have heM : e ∈ m := List.mem_of_mem_filter (hrepr ▸ he)
    have heNot : ¬∃ info2, (e.1, info2) ∈ m ∧ info2.buildingId = buildingId :=
      (mem_clearTileOccupancyByBuildingId.mp he).2
    have hidne : e.2.buildingId ≠ buildingId := fun hid => heNot ⟨e.2, by simpa using heM, hid⟩
    rw [← hcells e heM rc]
    constructor
    · intro hmem
      exact (mem_clearTileOccupancyByBuildingId.mp hmem).1
    · intro hmem
      refine mem_clearTileOccupancyByBuildingId.mpr ⟨hmem, ?_⟩
      rintro ⟨info2, hmem2, hid2⟩
      have : info2 = e.2 := value_eq_of_keys_nodup hkeys hmem2 hmem
      exact hidne (this ▸ hid2)
  
theorem occInvariant_place (m : OccMap) (row col : Int) (buildingType : String)
    (width height : Int) (buildingId : String) (nodeValid : Bool)
    (h : OccInvariant m)
    (hcan : TileOccupancyManager.canPlaceBuildingAt m row col width height = true)
    (hfresh : ∀ e ∈ m, e.2.buildingId ≠ buildingId) :
    OccInvariant (TileOccupancyManager.markTilesAsOccupied m row col buildingType
      width height buildingId nodeValid) := by
  obtain ⟨hkeys, hsame, hcells⟩ := h
  have hfree : ∀ c ∈ BuildingManager.getBuildingOccupiedTiles row col width height,
      mapHas m c = false := by
    rintro ⟨r, c⟩ hc
    obtain ⟨h1, h2, h3, h4⟩ := mem_getBuildingOccupiedTiles.mp hc
    exact (TileOccupancyManager.canPlaceBuildingAt_eq_true_iff.mp hcan r c h1 h2 h3 h4).2.2
  have hrepr : TileOccupancyManager.markTilesAsOccupied m row col buildingType width height
      buildingId nodeValid
      = m ++ ((BuildingManager.getBuildingOccupiedTiles row col width height).map
          fun c => (c, (⟨buildingId, buildingType, row, col, width, height,
            nodeValid⟩ : TileOccupancyInfo))) := by
    rw [markTiles_eq_foldl]
    exact foldl_mapSet_append _ _ m hfree nodup_getBuildingOccupiedTiles
  rw [hrepr]
  have hmemnew : ∀ e : (Int × Int) × TileOccupancyInfo,
      e ∈ ((BuildingManager.getBuildingOccupiedTiles row col width height).map
        fun c => (c, (⟨buildingId, buildingType, row, col, width, height,
          nodeValid⟩ : TileOccupancyInfo))) ↔
      e.1 ∈ BuildingManager.getBuildingOccupiedTiles row col width height ∧
        e.2 = ⟨buildingId, buildingType, row, col, width, height, nodeValid⟩ := by
    intro e
    constructor
    · intro he
      obtain ⟨c, hc, hce⟩ := List.mem_map.mp he
      refine ⟨?_, ?_⟩
      · rw [← hce]
        exact hc
      · rw [← hce]
    · rintro ⟨hc, hinfo⟩
      refine List.mem_map.mpr ⟨e.1, hc, ?_⟩
      rw [← hinfo]
  refine ⟨?_, ?_, ?_⟩
  · rw [List.map_append]
    refine List.nodup_append.mpr ⟨hkeys, ?_, ?_⟩
    · rw [List.map_map]
      have hcomp : ((fun e : (Int × Int) × TileOccupancyInfo => e.1) ∘ fun c =>
          (c, (⟨buildingId, buildingType, row, col, width, height,
            nodeValid⟩ : TileOccupancyInfo))) = id := rfl
      rw [hcomp, List.map_id]
      exact nodup_getBuildingOccupiedTiles
    · intro k hk1 hk2
      rw [List.map_map] at hk2
      have hcomp : ((fun e : (Int × Int) × TileOccupancyInfo => e.1) ∘ fun c =>
          (c, (⟨buildingId, buildingType, row, col, width, height,
            nodeValid⟩ : TileOccupancyInfo))) = id := rfl
      rw [hcomp, List.map_id] at hk2
      exact not_mem_keys_of_not_has (hfree k hk2) hk1
  · intro e1 h1 e2 h2 hid
    rcases List.mem_append.mp h1 with hm1 | hn1 <;> rcases List.mem_append.mp h2 with hm2 | hn2
    · exact hsame e1 hm1 e2 hm2 hid
    · exfalso
      have : e2.2.buildingId = buildingId := by rw [((hmemnew e2).mp hn2).2]
      exact hfresh e1 hm1 (hid.trans this)
    · exfalso
      have : e1.2.buildingId = buildingId := by rw [((hmemnew e1).mp hn1).2]
      exact hfresh e2 hm2 (hid.symm.trans this)
    · rw [((hmemnew e1).mp hn1).2, ((hmemnew e2).mp hn2).2]
  · intro e he rc
    rcases List.mem_append.mp he with hm | hn
    · have hidne : e.2.buildingId ≠ buildingId := hfresh e hm
      rw [List.mem_append]
      constructor
      · rintro (hmem | hmem)
        · exact (hcells e hm rc).mp hmem
        · exfalso
          exact hidne (by rw [((hmemnew (rc, e.2)).mp hmem).2])
      · intro hb
        exact Or.inl ((hcells e hm rc).mpr hb)
    · obtain ⟨hcell, hinfo⟩ := (hmemnew e).mp hn
      rw [List.mem_append, hinfo]
      constructor
      · rintro (hmem | hmem)
        · exfalso
          exact hfresh _ hmem rfl
        · have := ((hmemnew (rc, _)).mp hmem).1
          obtain ⟨h1, h2, h3, h4⟩ := mem_getBuildingOccupiedTiles.mp this
          exact ⟨h1, h2, h3, h4⟩
      · rintro ⟨h1, h2, h3, h4⟩
        refine Or.inr ((hmemnew (rc, _)).mpr ⟨?_, rfl⟩)
        exact mem_getBuildingOccupiedTiles.mpr ⟨h1, h2, h3, h4⟩

/-- C9: in every occupancy map reachable through successful placements
(`canPlaceBuildingAt` guard, `markTilesAsOccupied` with a fresh id), removals
(`removeBuilding` / `clearTileOccupancyByBuildingId`) and
`clearAllOccupancy`, every cell key maps to at most one record, all cells of
one building carry the identical record, and the cells carrying a record are
exactly its `width × height` footprint rectangle. -/
theorem occupancy_invariant_of_reachable (m : OccMap) (h : ReachableOcc m) :
    OccInvariant m := by
  induction h with
  | empty => exact occInvariant_empty
  | place m row col buildingType width height buildingId nodeValid _ hcan hfresh ih =>
    exact occInvariant_place m row col buildingType width height buildingId nodeValid
      ih hcan hfresh
  | removeById m buildingId _ ih => exact occInvariant_clearById m buildingId ih
  | clearAll m _ _ => exact occInvariant_empty

theorem foldl_coveringStep_sound (anchorRow anchorCol mapRows mapCols : Int)
    (tiles : List (Int × Int)) :
    ∀ (l : List BuildingManager.PlacedBuilding) (acc : List TileOccupancyInfo × List String)
      (x : TileOccupancyInfo),
      x ∈ (l.foldl (BuildingManager.coveringStep anchorRow anchorCol mapRows mapCols tiles)
        acc).1 →
      x ∈ acc.1 ∨ ∃ b ∈ l, x = b.buildingInfo ∧ ¬(b.row = anchorRow ∧ b.col = anchorCol) := by
  intro l
  induction l with
  | nil =>
    intro acc x hx
    exact Or.inl hx
  | cons b rest ih =>
    intro acc x hx
    simp only [List.foldl_cons] at hx
    rw [coveringStep_eq] at hx
    by_cases hc : coveringCond anchorRow anchorCol mapRows mapCols tiles b = true
    · rw [if_pos hc] at hx
      rcases ih _ x hx with h | ⟨b2, hb2, hxe, hskip⟩
      · rw [BuildingManager.dedupStep] at h
        by_cases hbseen : b.buildingInfo.buildingId ∈ acc.2
        · rw [if_pos hbseen] at h
          exact Or.inl h
        · rw [if_neg hbseen] at h
          rcases List.mem_append.mp h with h' | h'
          · exact Or.inl h'
          · rw [List.mem_singleton] at h'
            exact Or.inr ⟨b, List.mem_cons_self _ _, h', (coveringCond_eq_true_iff.mp hc).1⟩
      · exact Or.inr ⟨b2, List.mem_cons_of_mem _ hb2, hxe, hskip⟩
    · rw [if_neg hc] at hx
      rcases ih _ x hx with h | ⟨b2, hb2, hxe, hskip⟩
      · exact Or.inl h
      · exact Or.inr ⟨b2, List.mem_cons_of_mem _ hb2, hxe, hskip⟩

theorem mem_getAllPlacedBuildings {m : OccMap} {b : BuildingManager.PlacedBuilding}
    (h : b ∈ TileOccupancyManager.getAllPlacedBuildings m) :
    ∃ e ∈ m, b = ⟨e.2.anchorRow, e.2.anchorCol, e.2⟩ := by
  obtain ⟨e, he, hsome⟩ := List.mem_filterMap.mp h
  split_ifs at hsome with hkey
  exact ⟨e, he, (Option.some.inj hsome).symm⟩

theorem covering_mem_sound {anchorRow anchorCol width height mapRows mapCols
    detectionRadius : Int} {m : OccMap} {allPlaced : List BuildingManager.PlacedBuilding}
    {x : TileOccupancyInfo}
    (h : x ∈ (BuildingManager.getAdjacentBuildings anchorRow anchorCol width height mapRows
      mapCols m allPlaced detectionRadius).coveringBuildings) :
    ∃ b ∈ allPlaced, x = b.buildingInfo ∧ ¬(b.row = anchorRow ∧ b.col = anchorCol) := by
  simp only [BuildingManager.getAdjacentBuildings] at h
  rcases foldl_coveringStep_sound anchorRow anchorCol mapRows mapCols
      (BuildingManager.getBuildingOccupiedTiles anchorRow anchorCol width height)
      allPlaced ([], []) x h with h' | h'
  · cases h'
  · exact h'

/-- C10: over an occupancy map satisfying the footprint-consistency
invariant, `getAdjacentBuildings` queried for a placed building never lists
that building itself: its own cells are excluded from its detection area, so
it cannot appear in `coveredBuildings`, and the covering scan skips the
placed-buildings entry anchored at the queried anchor, so it cannot appear in
`coveringBuildings` either. -/
theorem getAdjacentBuildings_excludes_self (anchorRow anchorCol width height mapRows mapCols
    detectionRadius : Int) (m : OccMap) (info : TileOccupancyInfo)
    (hinv : OccInvariant m)
    (hmem : ((anchorRow, anchorCol), info) ∈ m)
    (hrow : info.anchorRow = anchorRow) (hcol : info.anchorCol = anchorCol)
    (hw : info.width = width) (hh : info.height = height) :
    (∀ x ∈ (BuildingManager.getAdjacentBuildings anchorRow anchorCol width height mapRows
        mapCols m (TileOccupancyManager.getAllPlacedBuildings m)
        detectionRadius).coveredBuildings, x.buildingId ≠ info.buildingId) ∧
    (∀ x ∈ (BuildingManager.getAdjacentBuildings anchorRow anchorCol width height mapRows
        mapCols m (TileOccupancyManager.getAllPlacedBuildings m)
        detectionRadius).coveringBuildings, x.buildingId ≠ info.buildingId) := by
  obtain ⟨hkeys, hsame, hcells⟩ := hinv
  constructor
  · intro x hx hid
    have hcov := covered_eq_firstDedup anchorRow anchorCol width height mapRows mapCols m
      (TileOccupancyManager.getAllPlacedBuildings m) detectionRadius
    rw [hcov] at hx
    obtain ⟨tile, htile, hget⟩ := List.mem_filterMap.mp (firstDedupById_subset _ _ hx)
    have hxmem : (tile, x) ∈ m := mapGet_eq_some_mem hget
    have hxinfo : x = info := hsame (tile, x) hxmem ((anchorRow, anchorCol), info) hmem hid
    subst hxinfo
    have hfoot := (hcells ((anchorRow, anchorCol), x) hmem tile).mp hxmem
    obtain ⟨tr, tc⟩ := tile
    rw [mem_getBuildingDetectionArea] at htile
    have h0 := @boxOffset_le_iff (anchorRow - height + 1) anchorRow (anchorCol - width + 1)
      anchorCol tr tc 0
    simp only [hrow, hcol, hw, hh] at hfoot
    omega
  · intro x hx hid
    obtain ⟨b, hb, hxb, hskip⟩ := covering_mem_sound hx
    obtain ⟨e, he, hbe⟩ := mem_getAllPlacedBuildings hb
    have hxe : x = e.2 := by rw [hxb, hbe]
    have heinfo : e.2 = info :=
      hsame e he ((anchorRow, anchorCol), info) hmem (by rw [← hxe, hid])
    refine hskip ?_
    rw [hbe]
    constructor
    · show e.2.anchorRow = anchorRow
      rw [heinfo, hrow]
    · show e.2.anchorCol = anchorCol
      rw [heinfo, hcol]

/-- Concrete instance of the C3 characterization on `mapB`. -/
theorem getAdjacentBuildings_covered_spec_witness :
    (BuildingManager.getAdjacentBuildings 0 0 1 1 10 10 mapB placedB 1).coveredBuildings
      = firstDedupById ((BuildingManager.getBuildingDetectionArea 0 0 1 1 10 10 1).filterMap
          (mapGet mapB)) :=
  (getAdjacentBuildings_covered_spec 0 0 1 1 10 10 mapB placedB 1).1

/-- Concrete instance of the C5 characterization on `mapB`/`placedB`. -/
theorem getAdjacentBuildings_covering_spec_witness :
    (BuildingManager.getAdjacentBuildings 0 0 1 1 10 10 mapB placedB 1).coveringBuildings
      = (placedB.filter (coveringCond 0 0 10 10
          (BuildingManager.getBuildingOccupiedTiles 0 0 1 1))).map (·.buildingInfo) :=
  (getAdjacentBuildings_covering_spec 0 0 1 1 10 10 mapB placedB 1 (by decide)).1

/-- Concrete occupancy record with a valid stored node reference. -/
def infoV : TileOccupancyInfo := ⟨"V", "hut", 0, 0, 1, 1, true⟩

/-- State with `infoV` occupying `(0, 0)` and a stored charm entry for it. -/
def stateV : TileOccupancyManager.SystemState := ⟨[((0, 0), infoV)], [("V", 5)]⟩

/-- Concrete instance of C8: removing the valid-node building at `(0, 0)`
does delete its stored charm entry. -/
theorem removeBuilding_spec_witness :
    ("V", 5) ∉ (TileOccupancyManager.removeBuilding stateV 0 0 true).2.buildingCharmValues := by
  intro hmemV
  exact ((removeBuilding_spec stateV 0 0 true).2 infoV (by decide)).2 rfl ("V", 5) hmemV rfl

/-- Concrete instance of C9: after placing a fresh 1×1 building on the empty
map, the key list of the occupancy map is duplicate-free. -/
theorem occupancy_invariant_of_reachable_witness :
    ((TileOccupancyManager.markTilesAsOccupied [] 0 0 "hut" 1 1 "b" true).map (·.1)).Nodup :=
  (occupancy_invariant_of_reachable _
    (ReachableOcc.place [] 0 0 "hut" 1 1 "b" true ReachableOcc.empty (by decide)
      (by simp))).1

/-- Concrete instance of C10: the 1×1 building placed at `(0, 0)` does not
cover itself. -/
theorem getAdjacentBuildings_excludes_self_witness :
    (⟨"b", "hut", 0, 0, 1, 1, true⟩ : TileOccupancyInfo) ∉
      (BuildingManager.getAdjacentBuildings 0 0 1 1 10 10
        (TileOccupancyManager.markTilesAsOccupied [] 0 0 "hut" 1 1 "b" true)
        (TileOccupancyManager.getAllPlacedBuildings
          (TileOccupancyManager.markTilesAsOccupied [] 0 0 "hut" 1 1 "b" true))
        1).coveredBuildings := by
  intro hmemW
  exact (getAdjacentBuildings_excludes_self 0 0 1 1 10 10 1
      (TileOccupancyManager.markTilesAsOccupied [] 0 0 "hut" 1 1 "b" true)
      ⟨"b", "hut", 0, 0, 1, 1, true⟩
      (occInvariant_place [] 0 0 "hut" 1 1 "b" true occInvariant_empty (by decide) (by simp))
      (by decide) rfl rfl rfl rfl).1 _ hmemW rfl
